import Mathlib

/-!
Verification of the toon-reporter serialization core against its source.

Strings of the JavaScript source are modelled as `List Char`.  Pure functions
of the source (`toonQuote`, `formatDuration`, `formatOutput`, the failure
grouping, the Playwright `onEnd` assembly) are translated into executable
Lean definitions; regular-expression matching over free-text error messages
is modelled by carrying the match outcome as data, as noted at each use.
-/

namespace ToonSpec

/-- JavaScript strings are modelled as lists of characters. -/
abbrev Str := List Char

/-- Coercion from Lean string literals into the `Str` model. -/
def str (s : String) : Str := s.data

/-- Decimal digit character (code 48 + d, for d < 10). -/
def digitChar (d : Nat) : Char := Char.ofNat (48 + d)

/-- Fuel-driven decimal rendering helper (fuel ≥ number of digits). -/
def natStrGo : Nat → Nat → Str → Str
  | 0, n, acc => digitChar (n % 10) :: acc
  | fuel + 1, n, acc =>
    if n < 10 then digitChar n :: acc
    else natStrGo fuel (n / 10) (digitChar (n % 10) :: acc)

/-- Decimal rendering of a natural number, modelling JavaScript
number-to-string conversion on non-negative integers. -/
def natStr (n : Nat) : Str := natStrGo n n []

theorem natStrGo_ne_nil (fuel n : Nat) (acc : Str) : natStrGo fuel n acc ≠ [] := by
  induction fuel generalizing n acc with
  | zero => simp [natStrGo]
  | succ f ih =>
    simp only [natStrGo]
    split
    · simp
    · exact ih _ _

theorem natStr_ne_nil (n : Nat) : natStr n ≠ [] := natStrGo_ne_nil n n []

/-- Whether `p` is an initial segment of `l` (JavaScript `String.startsWith`). -/
def startsWith : Str → Str → Bool
  | [], _ => true
  | _ :: _, [] => false
  | p :: ps, c :: cs => p = c && startsWith ps cs

theorem startsWith_append (p rest : Str) : startsWith p (p ++ rest) = true := by
  induction p with
  | nil => rfl
  | cons c cs ih => simp [startsWith, ih]

/-- One chained `String.prototype.replace(/c/g, r)` call of the source:
every occurrence of the character `c` is replaced by the string `r`. -/
def replaceCh (c : Char) (r : Str) : Str → Str
  | [] => []
  | x :: xs => (if x = c then r else [x]) ++ replaceCh c r xs

/-- ASCII digit test, modelling the regex character class `\d`. -/
def isDigitCh (c : Char) : Bool := '0' ≤ c && c ≤ '9'

/-- The optional leading minus sign of the numeric regex: strip one leading
`-` when present. -/
def stripMinus (v : Str) : Str :=
  match v with
  | c :: rest => if c = '-' then rest else c :: rest
  | [] => []

/-- The unsigned part of the numeric regex `\d+(\.\d+)?$`: one or more
digits, optionally followed by a dot and one or more digits, consuming the
whole input. -/
def numBody (body : Str) : Bool :=
  let intPart := body.takeWhile isDigitCh
  let rest := body.dropWhile isDigitCh
  !intPart.isEmpty &&
    (rest.isEmpty ||
      match rest with
      | c :: frac => c = '.' && !frac.isEmpty && frac.all isDigitCh
      | [] => false)

/-- The source's numeric-looking test `/^-?\d+(\.\d+)?$/.test(value)`
(src/src/toon-reporter.ts line 241). -/
def matchesNumber (v : Str) : Bool := numBody (stripMinus v)

/-- The quoting condition of `toonQuote` (src/src/toon-reporter.ts
lines 231-241): delimiter, newline, carriage return, tab, backslash or
double quote contained, reserved literal, or numeric-looking. -/
def needsQuote (value : Str) (delimiter : Char) : Bool :=
  value.contains delimiter ||
  value.contains '\n' ||
  value.contains '\r' ||
  value.contains '\t' ||
  value.contains '\\' ||
  value.contains '"' ||
  value == str "true" ||
  value == str "false" ||
  value == str "null" ||
  matchesNumber value

/-- The escaping chain of `toonQuote` (src/src/toon-reporter.ts lines
248-253): sequential global replaces, backslash first, then double quote,
newline, carriage return, tab. -/
def escapeToon (value : Str) : Str :=
  replaceCh '\t' (str "\\t")
    (replaceCh '\r' (str "\\r")
      (replaceCh '\n' (str "\\n")
        (replaceCh '"' (str "\\\"")
          (replaceCh '\\' (str "\\\\") value))))

/-- Source `toonQuote` (src/src/toon-reporter.ts lines 229-256): return the value
verbatim when no quoting is needed, otherwise wrap the escaped value in
double quotes. -/
def toonQuote (value : Str) (delimiter : Char) : Str :=
  if needsQuote value delimiter then '"' :: (escapeToon value ++ ['"'])
  else value

theorem of_mem_takeWhile {p : Char → Bool} :
    ∀ {l : Str} {c : Char}, c ∈ l.takeWhile p → p c = true := by
  intro l
  induction l with
  | nil => intro c h; simp [List.takeWhile] at h
  | cons x xs ih =>
    intro c h
    by_cases hx : p x = true
    · rw [List.takeWhile_cons, if_pos hx] at h
      rcases List.mem_cons.mp h with h | h
      · exact h ▸ hx
      · exact ih h
    · rw [List.takeWhile_cons, if_neg hx] at h
      simp at h

theorem takeWhile_append_of_all {p : Char → Bool} (l1 l2 : Str)
    (h1 : ∀ c ∈ l1, p c = true) :
    (l1 ++ l2).takeWhile p = l1 ++ l2.takeWhile p := by
  induction l1 with
  | nil => simp
  | cons x xs ih =>
    have hx : p x = true := h1 x (List.mem_cons_self x xs)
    simp only [List.cons_append, List.takeWhile_cons, if_pos hx]
    rw [ih (fun c hc => h1 c (List.mem_cons_of_mem x hc))]

theorem dropWhile_append_of_all {p : Char → Bool} (l1 l2 : Str)
    (h1 : ∀ c ∈ l1, p c = true) :
    (l1 ++ l2).dropWhile p = l2.dropWhile p := by
  induction l1 with
  | nil => simp
  | cons x xs ih =>
    have hx : p x = true := h1 x (List.mem_cons_self x xs)
    simp only [List.cons_append, List.dropWhile_cons, hx]
    exact ih (fun c hc => h1 c (List.mem_cons_of_mem x hc))

/-- The claim's integer-or-decimal numeric pattern, stated from the spec's
words: an optional minus sign, a non-empty run of digits, optionally
followed by a dot and a non-empty run of digits, covering the whole
string. -/
def SpecNumeric (v : Str) : Prop :=
  ∃ (neg : Bool) (i : Str) (fr : Option Str),
    i ≠ [] ∧ (∀ c ∈ i, isDigitCh c = true) ∧
    match fr with
    | none => v = (if neg then ['-'] else []) ++ i
    | some f => f ≠ [] ∧ (∀ c ∈ f, isDigitCh c = true) ∧
        v = (if neg then ['-'] else []) ++ i ++ '.' :: f

theorem not_isEmpty_eq {l : Str} : (!l.isEmpty) = true ↔ l ≠ [] := by
  cases l <;> simp

theorem numBody_iff (b : Str) :
    numBody b = true ↔
      ∃ (i : Str) (fr : Option Str),
        i ≠ [] ∧ (∀ c ∈ i, isDigitCh c = true) ∧
        match fr with
        | none => b = i
        | some f => f ≠ [] ∧ (∀ c ∈ f, isDigitCh c = true) ∧ b = i ++ '.' :: f := by
  constructor
  · intro h
    simp only [numBody, Bool.and_eq_true, Bool.or_eq_true] at h
    obtain ⟨h1, h2⟩ := h
    have hi : b.takeWhile isDigitCh ≠ [] := not_isEmpty_eq.mp h1
    have hsplit := List.takeWhile_append_dropWhile (p := isDigitCh) (l := b)
    rcases hdw : b.dropWhile isDigitCh with _ | ⟨c, frac⟩
    · rw [hdw, List.append_nil] at hsplit
      exact ⟨b.takeWhile isDigitCh, none, hi, fun c hc => of_mem_takeWhile hc,
        hsplit.symm⟩
    · rw [hdw] at h2
      simp only [List.isEmpty_cons, Bool.false_eq_true, false_or, Bool.and_eq_true,
        decide_eq_true_eq, List.all_eq_true] at h2
      obtain ⟨⟨hdot, hfne⟩, hfd⟩ := h2
      rw [hdw, hdot] at hsplit
      exact ⟨b.takeWhile isDigitCh, some frac, hi, fun c hc => of_mem_takeWhile hc,
        not_isEmpty_eq.mp hfne, hfd, hsplit.symm⟩
  · rintro ⟨i, fr, hi, hdig, hrest⟩
    rcases fr with _ | f
    · simp only at hrest
      have ht : b.takeWhile isDigitCh = i := by
        rw [hrest]
        simpa using takeWhile_append_of_all (p := isDigitCh) i [] hdig
      have hd : b.dropWhile isDigitCh = [] := by
        rw [hrest]
        simpa using dropWhile_append_of_all (p := isDigitCh) i [] hdig
      simp [numBody, ht, hd, hi]
    · obtain ⟨hf, hfd, hb⟩ := hrest
      have hdot : isDigitCh '.' = false := by decide
      have ht : b.takeWhile isDigitCh = i := by
        rw [hb, takeWhile_append_of_all (p := isDigitCh) i ('.' :: f) hdig]
        simp [List.takeWhile_cons, hdot]
      have hd : b.dropWhile isDigitCh = '.' :: f := by
        rw [hb, dropWhile_append_of_all (p := isDigitCh) i ('.' :: f) hdig]
        simp [List.dropWhile_cons, hdot]
      simp [numBody, ht, hd, hi, hf, List.all_eq_true.mpr hfd]

theorem matchesNumber_iff (v : Str) : matchesNumber v = true ↔ SpecNumeric v := by
  constructor
  · intro h
    rcases v with _ | ⟨c, cs⟩
    · simp [matchesNumber, stripMinus, numBody] at h
    · by_cases hc : c = '-'
      · subst hc
        rw [matchesNumber, stripMinus, if_pos rfl] at h
        obtain ⟨i, fr, hi, hdig, hrest⟩ := (numBody_iff cs).mp h
        refine ⟨true, i, fr, hi, hdig, ?_⟩
        rcases fr with _ | f
        · simp only at hrest ⊢; rw [hrest]; simp
        · obtain ⟨hf, hfd, hb⟩ := hrest
          exact ⟨hf, hfd, by rw [hb]; simp⟩
      · rw [matchesNumber, stripMinus, if_neg hc] at h
        obtain ⟨i, fr, hi, hdig, hrest⟩ := (numBody_iff (c :: cs)).mp h
        refine ⟨false, i, fr, hi, hdig, ?_⟩
        rcases fr with _ | f
        · simp only at hrest ⊢; rw [hrest]; simp
        · obtain ⟨hf, hfd, hb⟩ := hrest
          exact ⟨hf, hfd, by rw [hb]; simp⟩
  · rintro ⟨neg, i, fr, hi, hdig, hrest⟩
    have hbody : ∃ tail : Str,
        v = (if neg then ['-'] else []) ++ (i ++ tail) ∧
        numBody (i ++ tail) = true := by
      rcases fr with _ | f
      · simp only at hrest
        refine ⟨[], by simpa using hrest, ?_⟩
        exact (numBody_iff (i ++ [])).mpr ⟨i, none, hi, hdig, by simp⟩
      · obtain ⟨hf, hfd, hb⟩ := hrest
        refine ⟨'.' :: f, by simpa using hb, ?_⟩
        exact (numBody_iff (i ++ '.' :: f)).mpr ⟨i, some f, hi, hdig, hf, hfd, rfl⟩
    obtain ⟨tail, hv, hnb⟩ := hbody
    rcases neg with _ | _
    · simp only [Bool.false_eq_true, if_false, List.nil_append] at hv
      rcases i with _ | ⟨d, ds⟩
      · exact absurd rfl hi
      · have hd : isDigitCh d = true := hdig d (List.mem_cons_self d ds)
        have hdm : d ≠ '-' := by
          intro hdd
          rw [hdd] at hd
          exact absurd hd (by decide)
        rw [matchesNumber, hv]
        simp only [List.cons_append, stripMinus, if_neg hdm]
        rw [← List.cons_append]
        exact hnb
    · simp only [if_pos rfl] at hv
      rw [matchesNumber, hv]
      simp only [List.cons_append, List.nil_append, stripMinus, if_pos rfl]
      exact hnb

/-- The claim's quoting condition, stated from the spec's words: contains
the comma delimiter, a newline, carriage return or tab, a backslash or
double quote, is a reserved literal, or matches the numeric pattern. -/
def SpecQuoteRequired (v : Str) : Prop :=
  ',' ∈ v ∨ '\n' ∈ v ∨ '\r' ∈ v ∨ '\t' ∈ v ∨ '\\' ∈ v ∨ '"' ∈ v ∨
  v = str "true" ∨ v = str "false" ∨ v = str "null" ∨ SpecNumeric v

theorem contains_iff_mem {l : Str} {c : Char} : l.contains c = true ↔ c ∈ l :=
  List.elem_iff

theorem needsQuote_iff (v : Str) :
    needsQuote v ',' = true ↔ SpecQuoteRequired v := by
  simp only [needsQuote, SpecQuoteRequired, Bool.or_eq_true, contains_iff_mem,
    beq_iff_eq, matchesNumber_iff]
  tauto

theorem replaceCh_length_le (c : Char) (r : Str) (h : r ≠ []) (l : Str) :
    l.length ≤ (replaceCh c r l).length := by
  induction l with
  | nil => simp [replaceCh]
  | cons x xs ih =>
    simp only [replaceCh, List.length_append, List.length_cons]
    have : 1 ≤ (if x = c then r else [x]).length := by
      split
      · exact List.length_pos.mpr h
      · simp
    omega

theorem escapeToon_length_le (v : Str) : v.length ≤ (escapeToon v).length := by
  unfold escapeToon
  calc v.length
      ≤ (replaceCh '\\' (str "\\\\") v).length :=
        replaceCh_length_le _ _ (by simp [str]) _
    _ ≤ (replaceCh '"' (str "\\\"") (replaceCh '\\' (str "\\\\") v)).length :=
        replaceCh_length_le _ _ (by simp [str]) _
    _ ≤ _ := by
        refine le_trans (replaceCh_length_le '\n' (str "\\n") (by simp [str]) _) ?_
        refine le_trans (replaceCh_length_le '\r' (str "\\r") (by simp [str]) _) ?_
        exact replaceCh_length_le '\t' (str "\\t") (by simp [str]) _

/-- C1: the Value Formatter quotes a string if and only if it contains the
comma delimiter, a newline, carriage return or tab, a backslash or double
quote, is a reserved literal (`true`, `false`, `null`), or matches the
integer-or-decimal numeric pattern; every other string is returned
verbatim, and when quoting is required the output is a double-quoted token
(in particular not the input itself). -/
theorem toonQuote_verbatim_iff (v : Str) :
    (toonQuote v ',' = v ↔ ¬ SpecQuoteRequired v) ∧
    (SpecQuoteRequired v → ∃ t, toonQuote v ',' = '"' :: (t ++ ['"'])) := by
  by_cases hq : needsQuote v ',' = true
  · have hs : SpecQuoteRequired v := (needsQuote_iff v).mp hq
    have hne : toonQuote v ',' ≠ v := by
      simp only [toonQuote, if_pos hq]
      intro heq
      have hlen := congrArg List.length heq
      simp only [List.length_cons, List.length_append, List.length_singleton] at hlen
      have h2 := escapeToon_length_le v
      omega
    exact ⟨⟨fun h => (hne h).elim, fun h => (h hs).elim⟩,
      fun _ => ⟨escapeToon v, by simp [toonQuote, if_pos hq]⟩⟩
  · have hq' : needsQuote v ',' = false := Bool.eq_false_iff.mpr hq
    have hv : toonQuote v ',' = v := by simp [toonQuote, hq']
    have hns : ¬ SpecQuoteRequired v := fun hs => hq ((needsQuote_iff v).mpr hs)
    exact ⟨⟨fun _ => hns, fun _ => hv⟩, fun hs => (hns hs).elim⟩

/-- Witness for C1 at concrete inputs: the reserved literal `true` is not
returned verbatim. -/
theorem toonQuote_verbatim_iff_check : toonQuote (str "true") ',' ≠ str "true" :=
  fun h => (toonQuote_verbatim_iff (str "true")).1.mp h
    (Or.inr (Or.inr (Or.inr (Or.inr (Or.inr (Or.inr (Or.inl rfl)))))))

/-- Concatenation of the images of a list under a list-valued function. -/
def catList {α β : Type} (f : α → List β) : List α → List β
  | [] => []
  | x :: xs => f x ++ catList f xs

/-- Per-character view of the escaping chain: backslash, double quote,
newline, carriage return and tab map to their two-character escapes,
every other character passes through unchanged. -/
def escCh (c : Char) : Str :=
  if c = '\\' then str "\\\\"
  else if c = '"' then str "\\\""
  else if c = '\n' then str "\\n"
  else if c = '\r' then str "\\r"
  else if c = '\t' then str "\\t"
  else [c]

theorem replaceCh_append (c : Char) (r l1 l2 : Str) :
    replaceCh c r (l1 ++ l2) = replaceCh c r l1 ++ replaceCh c r l2 := by
  induction l1 with
  | nil => simp [replaceCh]
  | cons x xs ih => simp [replaceCh, ih]

theorem escapeToon_append (l1 l2 : Str) :
    escapeToon (l1 ++ l2) = escapeToon l1 ++ escapeToon l2 := by
  simp [escapeToon, replaceCh_append]

theorem escapeToon_single (x : Char) : escapeToon [x] = escCh x := by
  by_cases h1 : x = '\\'
  · subst h1; decide
  by_cases h2 : x = '"'
  · subst h2; decide
  by_cases h3 : x = '\n'
  · subst h3; decide
  by_cases h4 : x = '\r'
  · subst h4; decide
  by_cases h5 : x = '\t'
  · subst h5; decide
  simp [escapeToon, replaceCh, escCh, h1, h2, h3, h4, h5]

theorem escapeToon_eq_catList (v : Str) : escapeToon v = catList escCh v := by
  induction v with
  | nil => decide
  | cons x xs ih =>
    have : x :: xs = [x] ++ xs := rfl
    rw [this, escapeToon_append, escapeToon_single, ih]
    rfl

/-- Inverse of a two-character escape's second character. -/
def unescCh (c : Char) : Char :=
  if c = 'n' then '\n' else if c = 'r' then '\r' else if c = 't' then '\t' else c

/-- Modelled from the spec: decoding unescapes the five two-character
escape sequences (`\\`, `\"`, `\n`, `\r`, `\t`); the decoder itself is not
part of this repository's sources. -/
def unescapeToon : Str → Str
  | [] => []
  | [c] => [c]
  | c1 :: c2 :: rest =>
    if c1 = '\\' then unescCh c2 :: unescapeToon rest
    else c1 :: unescapeToon (c2 :: rest)

theorem escCh_ne_nil (c : Char) : escCh c ≠ [] := by
  unfold escCh
  split_ifs <;> simp [str]

theorem catList_escCh_eq_nil {cs : Str} (h : catList escCh cs = []) : cs = [] := by
  cases cs with
  | nil => rfl
  | cons d ds =>
    simp only [catList] at h
    exact absurd (List.append_eq_nil.mp h).1 (escCh_ne_nil d)

theorem unescape_escape (v : Str) : unescapeToon (catList escCh v) = v := by
  induction v with
  | nil => decide
  | cons c cs ih =>
    simp only [catList]
    by_cases h1 : c = '\\'
    · subst h1
      show unescapeToon ('\\' :: '\\' :: catList escCh cs) = _
      rw [unescapeToon, if_pos rfl, ih]
      rfl
    by_cases h2 : c = '"'
    · subst h2
      show unescapeToon ('\\' :: '"' :: catList escCh cs) = _
      rw [unescapeToon, if_pos rfl, ih]
      rfl
    by_cases h3 : c = '\n'
    · subst h3
      show unescapeToon ('\\' :: 'n' :: catList escCh cs) = _
      rw [unescapeToon, if_pos rfl, ih]
      rfl
    by_cases h4 : c = '\r'
    · subst h4
      show unescapeToon ('\\' :: 'r' :: catList escCh cs) = _
      rw [unescapeToon, if_pos rfl, ih]
      rfl
    by_cases h5 : c = '\t'
    · subst h5
      show unescapeToon ('\\' :: 't' :: catList escCh cs) = _
      rw [unescapeToon, if_pos rfl, ih]
      rfl
    have he : escCh c = [c] := by simp [escCh, h1, h2, h3, h4, h5]
    rw [he]
    rcases hcat : catList escCh cs with _ | ⟨d, ds⟩
    · rw [catList_escCh_eq_nil hcat]
      rfl
    · rw [List.singleton_append, unescapeToon, if_neg h1, ← hcat, ih]

/-- Modelled from the spec: decoding a quoted token strips the surrounding
double quotes and unescapes the five escape sequences; any other token is
returned as-is. -/
def decodeToken (t : Str) : Str :=
  if 2 ≤ t.length ∧ t.head? = some '"' ∧ t.getLast? = some '"'
  then unescapeToon ((t.drop 1).dropLast)
  else t

/-- C2: for every string containing a comma, double quote, backslash, tab,
carriage return or line feed, the formatter's output is the double-quoted
token built from the per-character escape map (exactly backslash, double
quote, newline, carriage return and tab become two-character escapes,
every other character passes through unchanged), and decoding the quoted
token restores the original string. -/
theorem toonQuote_roundtrip (v : Str)
    (h : ',' ∈ v ∨ '"' ∈ v ∨ '\\' ∈ v ∨ '\t' ∈ v ∨ '\r' ∈ v ∨ '\n' ∈ v) :
    toonQuote v ',' = '"' :: (catList escCh v ++ ['"']) ∧
    decodeToken (toonQuote v ',') = v := by
  have hq : needsQuote v ',' = true := by
    apply (needsQuote_iff v).mpr
    unfold SpecQuoteRequired
    tauto
  have h1 : toonQuote v ',' = '"' :: (catList escCh v ++ ['"']) := by
    rw [toonQuote, if_pos hq, escapeToon_eq_catList]
  refine ⟨h1, ?_⟩
  rw [h1]
  have hcond : 2 ≤ ('"' :: (catList escCh v ++ ['"'])).length ∧
      ('"' :: (catList escCh v ++ ['"'])).head? = some '"' ∧
      ('"' :: (catList escCh v ++ ['"'])).getLast? = some '"' := by
    refine ⟨by simp, rfl, ?_⟩
    rw [← List.cons_append, List.getLast?_concat]
  rw [decodeToken, if_pos hcond]
  simp only [List.drop_succ_cons, List.drop_zero, List.dropLast_concat]
  exact unescape_escape v

/-- Witness for C2 at a concrete input containing a comma. -/
theorem toonQuote_roundtrip_check :
    decodeToken (toonQuote (str "a,b") ',') = str "a,b" :=
  (toonQuote_roundtrip (str "a,b") (Or.inl (by decide))).2

/-- Time units of the compact duration literal. -/
inductive DUnit
  | hU
  | mU
  | sU
  | msU
deriving DecidableEq

/-- Unit suffix of a duration component. -/
def unitStr : DUnit → Str
  | .hU => str "h"
  | .mU => str "m"
  | .sU => str "s"
  | .msU => str "ms"

/-- Milliseconds represented by one of a unit. -/
def unitMult : DUnit → Nat
  | .hU => 3600000
  | .mU => 60000
  | .sU => 1000
  | .msU => 1

/-- Magnitude order of the units. -/
def unitRank : DUnit → Nat
  | .hU => 3
  | .mU => 2
  | .sU => 1
  | .msU => 0

/-- Spec-side rendering of a duration component sequence: each component is
its decimal number followed by its unit suffix, concatenated without
separators. -/
def renderParts (ps : List (Nat × DUnit)) : Str :=
  catList (fun p => natStr p.1 ++ unitStr p.2) ps

/-- Total milliseconds denoted by a duration component sequence. -/
def sumParts (ps : List (Nat × DUnit)) : Nat :=
  (ps.map (fun p => p.1 * unitMult p.2)).sum

/-- Source `formatDuration` (src/src/toon-playwright-reporter.ts lines 269-281):
hour, minute, second and millisecond components, zero-valued components
omitted, the millisecond component kept when all components are zero,
joined without separators. -/
def formatDuration (ms : Nat) : Str :=
  let h := ms / 3600000
  let m := (ms % 3600000) / 60000
  let s := (ms % 60000) / 1000
  let remaining := ms % 1000
  let parts : List Str :=
    (if h ≠ 0 then [natStr h ++ str "h"] else []) ++
    (if m ≠ 0 then [natStr m ++ str "m"] else []) ++
    (if s ≠ 0 then [natStr s ++ str "s"] else [])
  let parts2 :=
    if remaining ≠ 0 ∨ parts = [] then parts ++ [natStr remaining ++ str "ms"]
    else parts
  catList id parts2

/-- C9: for every non-negative millisecond total, the rendered duration is
a non-empty concatenation of decimal components with unit suffixes, in
strictly decreasing unit order, whose components sum back to the input
total; all components are non-zero except for the sole `0ms` rendering of
a zero remainder with no larger unit. -/
theorem formatDuration_decomposition (ms : Nat) :
    ∃ ps : List (Nat × DUnit),
      formatDuration ms = renderParts ps ∧
      ps ≠ [] ∧
      List.Chain' (fun a b => unitRank b.2 < unitRank a.2) ps ∧
      sumParts ps = ms ∧
      ((∀ q ∈ ps, q.1 ≠ 0) ∨ ps = [(0, DUnit.msU)]) := by
  refine ⟨(if ms / 3600000 ≠ 0 then [(ms / 3600000, DUnit.hU)] else []) ++
    (if ms % 3600000 / 60000 ≠ 0 then [(ms % 3600000 / 60000, DUnit.mU)] else []) ++
    (if ms % 60000 / 1000 ≠ 0 then [(ms % 60000 / 1000, DUnit.sU)] else []) ++
    (if ms % 1000 ≠ 0 ∨
        (ms / 3600000 = 0 ∧ ms % 3600000 / 60000 = 0 ∧ ms % 60000 / 1000 = 0)
     then [(ms % 1000, DUnit.msU)] else []), ?_, ?_, ?_, ?_, ?_⟩
  · by_cases hh : ms / 3600000 = 0 <;> by_cases hm : ms % 3600000 / 60000 = 0 <;>
      by_cases hs : ms % 60000 / 1000 = 0 <;> by_cases hr : ms % 1000 = 0 <;>
      simp [formatDuration, renderParts, catList, unitStr, hh, hm, hs, hr]
  · by_cases hh : ms / 3600000 = 0 <;> by_cases hm : ms % 3600000 / 60000 = 0 <;>
      by_cases hs : ms % 60000 / 1000 = 0 <;> by_cases hr : ms % 1000 = 0 <;>
      simp [hh, hm, hs, hr]
  · by_cases hh : ms / 3600000 = 0 <;> by_cases hm : ms % 3600000 / 60000 = 0 <;>
      by_cases hs : ms % 60000 / 1000 = 0 <;> by_cases hr : ms % 1000 = 0 <;>
      simp [hh, hm, hs, hr, List.chain'_cons, List.chain'_singleton, unitRank]
  · by_cases hh : ms / 3600000 = 0 <;> by_cases hm : ms % 3600000 / 60000 = 0 <;>
      by_cases hs : ms % 60000 / 1000 = 0 <;> by_cases hr : ms % 1000 = 0 <;>
      simp [sumParts, unitMult, hh, hm, hs, hr] <;> omega
  · by_cases hh : ms / 3600000 = 0 <;> by_cases hm : ms % 3600000 / 60000 = 0 <;>
      by_cases hs : ms % 60000 / 1000 = 0 <;> by_cases hr : ms % 1000 = 0 <;>
      simp [hh, hm, hs, hr]

/-- A failure record of the Vitest reporter (src/src/toon-reporter.ts
lines 42-51); `at` is rendered as `atLoc` (`at` is reserved in Lean).
The absolute-path/line/column fields only feed the hyperlink decoration of
colorized mode and are kept for shape. -/
structure ToonFailure where
  atLoc : Str
  absPath : Str
  line : Option Nat
  column : Option Nat
  expected : Option Str
  got : Option Str
  error : Option Str
  each : Bool
deriving DecidableEq

/-- A skipped/todo record of the Vitest reporter (src/src/toon-reporter.ts
lines 53-59). -/
structure ToonSkipped where
  atLoc : Str
  absPath : Str
  line : Option Nat
  column : Option Nat
  name : Str
deriving DecidableEq

/-- Insertion into the location-keyed group map (a JS `Map` preserves key
insertion order), appending the failure to its location's group
(src/src/toon-reporter.ts lines 283-288). -/
def addGrouped (m : List (Str × List ToonFailure)) (f : ToonFailure) :
    List (Str × List ToonFailure) :=
  match m with
  | [] => [(f.atLoc, [f])]
  | (k, g) :: rest =>
    if k = f.atLoc then (k, g ++ [f]) :: rest else (k, g) :: addGrouped rest f

/-- One step of the grouping loop (src/src/toon-reporter.ts lines 282-292):
an `each`-flagged failure goes to the location-keyed map, any other failure
to the regular list. -/
def partStep (acc : List ToonFailure × List (Str × List ToonFailure))
    (f : ToonFailure) : List ToonFailure × List (Str × List ToonFailure) :=
  if f.each then (acc.1, addGrouped acc.2 f) else (acc.1 ++ [f], acc.2)

/-- The grouping pass of `formatOutput` over the ordered failure list. -/
def partitionFailures (failures : List ToonFailure) :
    List ToonFailure × List (Str × List ToonFailure) :=
  failures.foldl partStep ([], [])

/-- JavaScript truthiness of the `error` field (`if (failure.error)`):
present and non-empty. -/
def errTruthy (f : ToonFailure) : Bool :=
  match f.error with
  | some e => !e.isEmpty
  | none => false

/-- The check `groupedFailures.every(f => f.expected !== undefined && f.got !==
undefined)` (src/src/toon-reporter.ts line 311). -/
def allExpectedGot (g : List ToonFailure) : Bool :=
  g.all fun f => f.expected.isSome && f.got.isSome

/-- A row of a `parameters[..]{expected,got}` block
(src/src/toon-reporter.ts line 316). -/
def egRow (f : ToonFailure) : Str :=
  str "    " ++ toonQuote (f.expected.getD []) ',' ++ ',' :: toonQuote (f.got.getD []) ','

/-- A row of a `parameters[..]{error}` block
(src/src/toon-reporter.ts line 323). -/
def errRow (f : ToonFailure) : Str :=
  str "    " ++ toonQuote (f.error.getD []) ','

/-- The per-group emission of `formatOutput` (src/src/toon-reporter.ts
lines 306-327), colorless mode: the group's location once, a parameters
header carrying the group size, then either one row per member
(all-assertion case) or one row per member with a truthy `error`. -/
def groupBlock (g : List ToonFailure) : List Str :=
  match g with
  | [] => []
  | first :: _ =>
    (str "- at: " ++ first.atLoc) ::
    (if allExpectedGot g then
      (str "  parameters[" ++ natStr g.length ++ str "]{expected,got}:") ::
        g.map egRow
    else
      (str "  parameters[" ++ natStr g.length ++ str "]{error}:") ::
        (g.filter errTruthy).map errRow)

/-- The per-regular-failure emission of `formatOutput`
(src/src/toon-reporter.ts lines 295-303), colorless mode. -/
def regularBlock (f : ToonFailure) : List Str :=
  (str "- at: " ++ f.atLoc) ::
  (if f.expected.isSome && f.got.isSome then
    [str "  expected: " ++ toonQuote (f.expected.getD []) ',',
     str "  got: " ++ toonQuote (f.got.getD []) ',']
  else if errTruthy f then
    [str "  error: " ++ toonQuote (f.error.getD []) ',']
  else [])

/-- The lines of `formatOutput` (src/src/toon-reporter.ts lines 258-348)
in colorless mode (`useColor` false, as when writing to a file or a capture
hook, where `formatLocation` returns `at` unchanged and all color codes are
empty); the final output joins these lines with newlines. -/
def formatOutputLines (passing : Nat) (failures : List ToonFailure)
    (skipped todo : List ToonSkipped) : List Str :=
  [str "passing: " ++ natStr passing] ++
  (if failures.isEmpty then [] else
    (str "failing[" ++ natStr failures.length ++ str "]:") ::
      (catList regularBlock (partitionFailures failures).1 ++
       catList (fun kg => groupBlock kg.2) (partitionFailures failures).2)) ++
  (if todo.isEmpty then [] else
    (str "todo[" ++ natStr todo.length ++ str "]{at,name}:") ::
      todo.map (fun t => str "  " ++ t.atLoc ++ ',' :: toonQuote t.name ',')) ++
  (if skipped.isEmpty then [] else
    (str "skipped[" ++ natStr skipped.length ++ str "]{at,name}:") ::
      skipped.map (fun s => str "  " ++ s.atLoc ++ ',' :: toonQuote s.name ','))

/-- Source `formatOutput`, joined with newlines. -/
def formatOutput (passing : Nat) (failures : List ToonFailure)
    (skipped todo : List ToonSkipped) : Str :=
  List.intercalate (str "\n") (formatOutputLines passing failures skipped todo)

/-- Association lookup in the group map. -/
def findG (m : List (Str × List ToonFailure)) (k : Str) :
    Option (List ToonFailure) :=
  match m with
  | [] => none
  | (k', g) :: rest => if k' = k then some g else findG rest k

theorem partStep_each_true {acc : List ToonFailure × List (Str × List ToonFailure)}
    {f : ToonFailure} (he : f.each = true) :
    partStep acc f = (acc.1, addGrouped acc.2 f) := by
  simp [partStep, he]

theorem partStep_each_false {acc : List ToonFailure × List (Str × List ToonFailure)}
    {f : ToonFailure} (he : f.each = false) :
    partStep acc f = (acc.1 ++ [f], acc.2) := by
  simp [partStep, he]

theorem addGrouped_findG (m : List (Str × List ToonFailure)) (f : ToonFailure)
    (k : Str) :
    findG (addGrouped m f) k =
      if f.atLoc = k then some ((findG m k).getD [] ++ [f]) else findG m k := by
  induction m with
  | nil =>
    simp only [addGrouped, findG]
    by_cases hk : f.atLoc = k
    · simp [hk]
    · simp [hk]
  | cons p rest ih =>
    obtain ⟨k', g⟩ := p
    by_cases hk' : k' = f.atLoc
    · subst hk'
      simp only [addGrouped, if_pos rfl]
      by_cases hk : f.atLoc = k
      · simp [findG, hk]
      · simp [findG, hk]
    · simp only [addGrouped, if_neg hk']
      by_cases hk : k' = k
      · subst hk
        have hfk : f.atLoc ≠ k' := fun h => hk' h.symm
        simp [findG, hfk]
      · simp [findG, hk, ih]

theorem foldl_partStep_fst (fs : List ToonFailure) :
    ∀ reg grp, (List.foldl partStep (reg, grp) fs).1 =
      reg ++ fs.filter (fun f => !f.each) := by
  induction fs with
  | nil => intro reg grp; simp
  | cons f fs ih =>
    intro reg grp
    rw [List.foldl_cons]
    by_cases he : f.each = true
    · rw [partStep_each_true he, ih]
      simp [List.filter_cons, he]
    · have he' : f.each = false := Bool.eq_false_iff.mpr he
      rw [partStep_each_false he', ih]
      simp [List.filter_cons, he']

theorem foldl_partStep_findG (fs : List ToonFailure) :
    ∀ reg grp k,
      findG ((List.foldl partStep (reg, grp) fs).2) k =
        match findG grp k with
        | some g0 => some (g0 ++ fs.filter (fun f => f.each && f.atLoc == k))
        | none =>
          if fs.filter (fun f => f.each && f.atLoc == k) = [] then none
          else some (fs.filter (fun f => f.each && f.atLoc == k)) := by
  induction fs with
  | nil =>
    intro reg grp k
    rcases h : findG grp k with _ | g0 <;> simp [h]
  | cons f fs ih =>
    intro reg grp k
    rw [List.foldl_cons]
    by_cases he : f.each = true
    · rw [partStep_each_true he, ih, addGrouped_findG]
      by_cases hk : f.atLoc = k
      · have hbeq : (f.atLoc == k) = true := beq_iff_eq.mpr hk
        rw [if_pos hk]
        rcases h0 : findG grp k with _ | g0
        · simp [h0, List.filter_cons, he, hbeq]
        · simp [h0, List.filter_cons, he, hbeq]
      · have hbeq : (f.atLoc == k) = false := by
          simp [hk]
        rw [if_neg hk]
        rcases h0 : findG grp k with _ | g0
        · simp [h0, List.filter_cons, he, hbeq]
        · simp [h0, List.filter_cons, he, hbeq]
    · have he' : f.each = false := Bool.eq_false_iff.mpr he
      rw [partStep_each_false he', ih]
      rcases h0 : findG grp k with _ | g0
      · simp [h0, List.filter_cons, he']
      · simp [h0, List.filter_cons, he']

theorem addGrouped_keys (m : List (Str × List ToonFailure)) (f : ToonFailure) :
    (addGrouped m f).map Prod.fst =
      if f.atLoc ∈ m.map Prod.fst then m.map Prod.fst
      else m.map Prod.fst ++ [f.atLoc] := by
  induction m with
  | nil => simp [addGrouped]
  | cons p rest ih =>
    obtain ⟨k', g⟩ := p
    by_cases hk' : k' = f.atLoc
    · subst hk'
      simp [addGrouped]
    · have hne : f.atLoc ≠ k' := fun h => hk' h.symm
      simp only [addGrouped, if_neg hk', List.map_cons, ih]
      by_cases hmem : f.atLoc ∈ rest.map Prod.fst
      · rw [if_pos hmem, if_pos (List.mem_cons.mpr (Or.inr hmem))]
      · have hnc : f.atLoc ∉ k' :: rest.map Prod.fst := by
          intro hx
          rcases List.mem_cons.mp hx with hx | hx
          · exact hne hx
          · exact hmem hx
        rw [if_neg hmem, if_neg hnc]
        simp

theorem addGrouped_keys_nodup (m : List (Str × List ToonFailure))
    (f : ToonFailure) (h : (m.map Prod.fst).Nodup) :
    ((addGrouped m f).map Prod.fst).Nodup := by
  rw [addGrouped_keys]
  by_cases hmem : f.atLoc ∈ m.map Prod.fst
  · simpa [hmem] using h
  · rw [if_neg hmem]
    refine ((List.perm_append_singleton _ _).nodup_iff).mpr ?_
    exact List.nodup_cons.mpr ⟨hmem, h⟩

theorem foldl_partStep_keys_nodup (fs : List ToonFailure) :
    ∀ reg grp, (grp.map Prod.fst).Nodup →
      (((List.foldl partStep (reg, grp) fs).2).map Prod.fst).Nodup := by
  induction fs with
  | nil => intro reg grp h; simpa using h
  | cons f fs ih =>
    intro reg grp h
    rw [List.foldl_cons]
    by_cases he : f.each = true
    · rw [partStep_each_true he]
      exact ih _ _ (addGrouped_keys_nodup _ _ h)
    · have he' : f.each = false := Bool.eq_false_iff.mpr he
      rw [partStep_each_false he']
      exact ih _ _ h

theorem findG_of_mem {m : List (Str × List ToonFailure)} {k : Str}
    {g : List ToonFailure} (hnd : (m.map Prod.fst).Nodup) (h : (k, g) ∈ m) :
    findG m k = some g := by
  induction m with
  | nil => simp at h
  | cons p rest ih =>
    obtain ⟨k', g'⟩ := p
    rcases List.mem_cons.mp h with h | h
    · injection h with h1 h2
      subst h1
      subst h2
      simp [findG]
    · have hk' : k' ≠ k := by
        intro he
        subst he
        exact (List.nodup_cons.mp hnd).1 (List.mem_map.mpr ⟨(k', g), h, rfl⟩)
      simp only [findG, if_neg hk']
      exact ih (List.nodup_cons.mp hnd).2 h

theorem findG_mem {m : List (Str × List ToonFailure)} {k : Str}
    {g : List ToonFailure} (h : findG m k = some g) : (k, g) ∈ m := by
  induction m with
  | nil => simp [findG] at h
  | cons p rest ih =>
    obtain ⟨k', g'⟩ := p
    simp only [findG] at h
    by_cases hk : k' = k
    · subst hk
      rw [if_pos rfl] at h
      injection h with h1
      subst h1
      exact List.mem_cons_self _ _
    · rw [if_neg hk] at h
      exact List.mem_cons.mpr (Or.inr (ih h))

/-- C6: the grouper partitions the ordered failure sequence by the
per-record `each` flag — the regular list is exactly the non-flagged
failures, in order; every group keyed by a location consists exactly of the
flagged failures at that location, in original sequence order (so two
failures with different locations never share a group); and every flagged
failure lands in the group of its own location. -/
theorem partitionFailures_spec (fs : List ToonFailure) :
    (partitionFailures fs).1 = fs.filter (fun f => !f.each) ∧
    (∀ k g, (k, g) ∈ (partitionFailures fs).2 →
      g = fs.filter (fun f => f.each && f.atLoc == k)) ∧
    (∀ k g, (k, g) ∈ (partitionFailures fs).2 →
      ∀ f1 ∈ g, ∀ f2 ∈ g, f1.each = true ∧ f1.atLoc = f2.atLoc) ∧
    (∀ f ∈ fs, f.each = true →
      ∃ g, (f.atLoc, g) ∈ (partitionFailures fs).2 ∧ f ∈ g) := by
  have hnd : (((partitionFailures fs).2).map Prod.fst).Nodup :=
    foldl_partStep_keys_nodup fs [] [] (by simp)
  have hmem : ∀ k g, (k, g) ∈ (partitionFailures fs).2 →
      g = fs.filter (fun f => f.each && f.atLoc == k) := by
    intro k g hg
    have hf := findG_of_mem hnd hg
    rw [partitionFailures] at hf
    rw [foldl_partStep_findG fs [] [] k] at hf
    simp only [findG] at hf
    by_cases hnil : fs.filter (fun f => f.each && f.atLoc == k) = []
    · rw [if_pos hnil] at hf
      exact absurd hf (by simp)
    · rw [if_neg hnil] at hf
      injection hf with hf
      exact hf.symm
  refine ⟨?_, hmem, ?_, ?_⟩
  · rw [partitionFailures]
    have := foldl_partStep_fst fs [] []
    simpa using this
  · intro k g hg f1 h1 f2 h2
    have hge := hmem k g hg
    rw [hge] at h1 h2
    have p1 := List.of_mem_filter h1
    have p2 := List.of_mem_filter h2
    simp only [Bool.and_eq_true, beq_iff_eq] at p1 p2
    exact ⟨p1.1, p1.2.trans p2.2.symm⟩
  · intro f hf he
    have hne : fs.filter (fun x => x.each && x.atLoc == f.atLoc) ≠ [] := by
      intro hnil
      have : f ∈ fs.filter (fun x => x.each && x.atLoc == f.atLoc) :=
        List.mem_filter.mpr ⟨hf, by simp [he]⟩
      rw [hnil] at this
      simp at this
    have hfind : findG ((partitionFailures fs).2) f.atLoc =
        some (fs.filter (fun x => x.each && x.atLoc == f.atLoc)) := by
      rw [partitionFailures, foldl_partStep_findG fs [] [] f.atLoc]
      simp only [findG]
      rw [if_neg hne]
    refine ⟨fs.filter (fun x => x.each && x.atLoc == f.atLoc), findG_mem hfind, ?_⟩
    exact List.mem_filter.mpr ⟨hf, by simp [he]⟩

/-- A concrete flagged failure used by the grouping witness. -/
def wEach : ToonFailure :=
  ⟨str "a.ts:1:2", str "/r/a.ts", some 1, some 2, some (str "1"), some (str "2"),
    none, true⟩

/-- A concrete unflagged failure used by the grouping witness. -/
def wPlain : ToonFailure :=
  ⟨str "a.ts:1:2", str "/r/a.ts", some 1, some 2, none, none, some (str "oops"),
    false⟩

/-- Witness for C6 at a concrete input: the unflagged failure stays regular
even though it shares the flagged failure's location, and the group at that
location holds exactly the flagged failure. -/
theorem partitionFailures_spec_check :
    (partitionFailures [wEach, wPlain]).1 = [wPlain] ∧
    [wEach] = [wEach, wPlain].filter (fun f => f.each && f.atLoc == wEach.atLoc) := by
  constructor
  · rw [(partitionFailures_spec [wEach, wPlain]).1]
    decide
  · exact (partitionFailures_spec [wEach, wPlain]).2.1 wEach.atLoc [wEach] (by decide)

/-- C3 (amended): for every non-empty parameterized-failure group the
encoder emits the group's shared location once, then a `parameters` header
whose bracketed count is the group's cardinality and whose field set is
`{expected,got}` when every member is assertion-style and `{error}`
otherwise, then — in the all-assertion case — one row per member in
invocation order, and otherwise one row per member carrying a non-empty
`error` string, in invocation order (members without one produce no row). -/
theorem groupBlock_spec (first : ToonFailure) (rest : List ToonFailure) :
    groupBlock (first :: rest) =
      (str "- at: " ++ first.atLoc) ::
      (str "  parameters[" ++ natStr (first :: rest).length ++
        (if allExpectedGot (first :: rest) then str "]{expected,got}:"
         else str "]{error}:")) ::
      (if allExpectedGot (first :: rest) then (first :: rest).map egRow
       else ((first :: rest).filter errTruthy).map errRow) := by
  rw [groupBlock]
  by_cases h : allExpectedGot (first :: rest) = true
  · simp [h]
  · have h' : allExpectedGot (first :: rest) = false := Bool.eq_false_iff.mpr h
    simp [h']

/-- A concrete assertion-style flagged failure (shared location). -/
def mixA : ToonFailure :=
  ⟨str "math.ts:16:17", str "/r/math.ts", some 16, some 17, some (str "1"),
    some (str "2"), none, true⟩

/-- A concrete thrown-style flagged failure (shared location). -/
def mixB : ToonFailure :=
  ⟨str "math.ts:16:17", str "/r/math.ts", some 16, some 17, none, none,
    some (str "boom"), true⟩

/-- Counterexample to C3 as stated: a mixed group of two members (one
assertion-style, one thrown-style) produces a block with a single row — not
one row per group member — although the bracketed count still says 2. -/
theorem groupBlock_mixed_cex :
    groupBlock [mixA, mixB] =
      [str "- at: math.ts:16:17", str "  parameters[2]{error}:",
        str "    boom"] ∧
    [mixA, mixB].length = 2 := by
  constructor
  · decide
  · rfl

/-- A source location of the Playwright reporter. -/
structure PwLoc where
  file : Str
  line : Nat
  column : Nat
deriving DecidableEq

/-- A Playwright test error (`TestError`).  The outcomes of the two
regular-expression probes over the ANSI-stripped message
(`/Expected:\s*(.+?)(?:\n|$)/i` paired with `/Received:\s*(.+?)(?:\n|$)/i`,
and `/expect\((.+?)\)\.toBe\((.+?)\)/i`,
src/src/toon-playwright-reporter.ts lines 319-339) are modelled as data
fields carrying the captured groups, the message being free text external
to this core; when a probe matches, its non-optional capture groups are
necessarily present, hence one field per probe. -/
structure PwError where
  message : Option Str
  errLoc : Option PwLoc
  expectedMatch : Option Str
  receivedMatch : Option Str
  toBeMatch : Option (Str × Str)
deriving DecidableEq

/-- One attempt's result of a Playwright test. -/
structure PwResult where
  status : Str
  duration : Nat
  errors : List PwError
deriving DecidableEq

/-- A Playwright test case; `fixme` models
`test.annotations.some(a => a.type === 'fixme')` (line 384). -/
structure PwTest where
  location : PwLoc
  title : Str
  fixme : Bool
  results : List PwResult
deriving DecidableEq

/-- Source `formatLocation` (src/src/toon-playwright-reporter.ts lines 301-304):
`relPath:line:col` when the line is non-zero (JS truthiness), else just the
path; relativization by the external path library is modelled as the
identity on the stored path. -/
def formatLocation (loc : PwLoc) : Str :=
  if loc.line ≠ 0 then
    loc.file ++ ':' :: natStr loc.line ++ ':' :: natStr loc.column
  else loc.file

/-- The JavaScript whitespace characters occurring in the ASCII messages
`String.prototype.trim` is applied to here. -/
def isWsCh (c : Char) : Bool := c = ' ' || c = '\t' || c = '\n' || c = '\r'

/-- JavaScript `String.prototype.trim`. -/
def trimStr (l : Str) : Str :=
  ((l.dropWhile isWsCh).reverse.dropWhile isWsCh).reverse

/-- Source `stripOuterQuotes` (src/src/toon-playwright-reporter.ts lines
311-317): remove one matching pair of surrounding double or single
quotes. -/
def stripOuterQuotes (l : Str) : Str :=
  if (l.head? = some '"' ∧ l.getLast? = some '"') ∨
      (l.head? = some '\'' ∧ l.getLast? = some '\'') then
    (l.drop 1).dropLast
  else l

/-- Source `parseExpectedGot` of the Playwright reporter
(src/src/toon-playwright-reporter.ts lines 319-339): the
`Expected:`/`Received:` probe first (both must match), then the
`expect(..).toBe(..)` probe, else no extraction. -/
def parseExpectedGotPw (e : PwError) : Option Str × Option Str :=
  match e.expectedMatch, e.receivedMatch with
  | some em, some rm =>
    (some (stripOuterQuotes (trimStr em)), some (stripOuterQuotes (trimStr rm)))
  | _, _ =>
    match e.toBeMatch with
    | some (g1, g2) =>
      (some (stripOuterQuotes (trimStr g2)), some (stripOuterQuotes (trimStr g1)))
    | none => (none, none)

/-- A failure record of the Playwright reporter (`FailureData`,
src/src/toon-playwright-reporter.ts lines 235-240); `at` is rendered as
`atLoc`. -/
structure FailureData where
  atLoc : Str
  expected : Option Str
  got : Option Str
  error : Option Str
deriving DecidableEq

/-- The failure construction of the Playwright `onEnd`
(src/src/toon-playwright-reporter.ts lines 422-441): the last result's
first error, its location or the test's own, then either the extracted
expected/got pair or the raw error message. -/
def mkFailurePw (t : PwTest) : FailureData :=
  let lastRes := t.results.getLast?
  let error := lastRes.bind fun r => r.errors.head?
  let loc := (error.bind fun e => e.errLoc).getD t.location
  let here := formatLocation loc
  match error with
  | none => ⟨here, none, none, none⟩
  | some e =>
    match parseExpectedGotPw e with
    | (some x, some g) => ⟨here, some x, some g, none⟩
    | _ => ⟨here, none, none, e.message⟩

/-- Last attempt of a test. -/
def lastResult (t : PwTest) : Option PwResult := t.results.getLast?

/-- The flaky check (src/src/toon-playwright-reporter.ts lines 387-390):
last status passed, more than one attempt, some attempt failed. -/
def isFlaky (t : PwTest) : Bool :=
  match lastResult t with
  | some r =>
    r.status == str "passed" && decide (t.results.length > 1) &&
      t.results.any fun r' => r'.status == str "failed"
  | none => false

/-- Destination of a test in the classification chain of the `onEnd` loop
(src/src/toon-playwright-reporter.ts lines 376-405); `dropped` covers both
a missing last result and a status matching no branch. -/
inductive Bucket
  | passed
  | failed
  | skippedB
  | todoB
  | flakyB
  | dropped
deriving DecidableEq

/-- The classification chain itself. -/
def bucketOf (t : PwTest) : Bucket :=
  match lastResult t with
  | none => .dropped
  | some r =>
    if isFlaky t then .flakyB
    else if r.status == str "passed" then .passed
    else if r.status == str "failed" || r.status == str "timedOut" ||
        r.status == str "interrupted" then .failed
    else if r.status == str "skipped" then
      (if t.fixme then .todoB else .skippedB)
    else .dropped

/-- Coverage summary.  Modelled from the spec (§3, §4.6): the coverage
section belongs to this repository but its emission code is not among the
sources under review; per the spec it carries four aggregate percentages
plus a file-entry list, and is present only when supplied. -/
structure CovSummary where
  linesPct : Nat
  stmtsPct : Nat
  branchPct : Nat
  funcsPct : Nat
  files : List (Str × Str)
deriving DecidableEq

/-- The results snapshot `onEnd` works from: reporter state
(`_didBegin`, `testsDiscovered`), the suite's tests, the `FullResult`
status and duration, and the options/config flags; `filtering` models
`config.grep || config.grepInvert` being configured (line 481). -/
structure PwSnapshot where
  didBegin : Bool
  testsDiscovered : Nat
  tests : List PwTest
  resultStatus : Str
  resultDuration : Nat
  timing : Bool
  filtering : Bool
  coverage : Option CovSummary
deriving DecidableEq

/-- Source `testsWithResults` (lines 374-379). -/
def testsWithResults (s : PwSnapshot) : Nat :=
  (s.tests.filter fun t => (lastResult t).isSome).length

/-- The five classification buckets, in suite order. -/
def passedTests (s : PwSnapshot) : List PwTest :=
  s.tests.filter fun t => bucketOf t == .passed

/-- Tests whose last status is failed, timedOut or interrupted. -/
def failedTests (s : PwSnapshot) : List PwTest :=
  s.tests.filter fun t => bucketOf t == .failed

/-- Skipped (non-fixme) tests. -/
def skippedTests (s : PwSnapshot) : List PwTest :=
  s.tests.filter fun t => bucketOf t == .skippedB

/-- Fixme-annotated skipped tests. -/
def todoTests (s : PwSnapshot) : List PwTest :=
  s.tests.filter fun t => bucketOf t == .todoB

/-- Flaky tests. -/
def flakyTests (s : PwSnapshot) : List PwTest :=
  s.tests.filter fun t => bucketOf t == .flakyB

/-- Source `mapToTiming` (lines 454-461): `Math.round(lastResult?.duration ?? 0)`
on the integral model is the duration itself. -/
def mapToTiming (t : PwTest) : Str × Str × Nat :=
  (formatLocation t.location, t.title, ((lastResult t).map PwResult.duration).getD 0)

/-- Source `mapToFlaky` (lines 448-452). -/
def mapToFlaky (t : PwTest) : Str × Str × Nat :=
  (formatLocation t.location, t.title, t.results.length - 1)

/-- Source `mapToSkipped` (lines 443-446). -/
def mapToSkippedPw (t : PwTest) : Str × Str :=
  (formatLocation t.location, t.title)

/-- The error message of the empty-suite path (lines 352-363). -/
def emptyMsg (s : PwSnapshot) : Str :=
  if s.testsDiscovered > 0 then
    natStr s.testsDiscovered ++ str " test(s) discovered but not executed"
  else if s.resultStatus == str "interrupted" then str "Test run was interrupted"
  else if s.resultStatus == str "timedout" then str "Test run timed out"
  else str "No test files found"

/-- The error message of the none-executed path (lines 408-414). -/
def notExecutedMsg (s : PwSnapshot) : Str :=
  natStr s.tests.length ++ str " test(s) discovered but not executed" ++
  (if s.resultStatus == str "timedout" then str " (timed out)"
   else if s.resultStatus == str "interrupted" then str " (interrupted)"
   else [])

/-- A section of the report document; a JS object's string keys keep
insertion order, so the assembled `ReportData` is modelled as the list of
its sections in the order the code inserts them. -/
inductive Sec
  | errorSec (msg : Str)
  | durationSec (d : Str)
  | passingCount (n : Nat)
  | passingTiming (rows : List (Str × Str × Nat))
  | flakySec (rows : List (Str × Str × Nat))
  | failingSec (rows : List FailureData)
  | todoSec (rows : List (Str × Str))
  | skippedSec (rows : List (Str × Str))
  | coverageSec (c : CovSummary)
deriving DecidableEq

/-- The key under which a section is stored in the report object. -/
def secName : Sec → Str
  | .errorSec _ => str "error"
  | .durationSec _ => str "duration"
  | .passingCount _ => str "passing"
  | .passingTiming _ => str "passing"
  | .flakySec _ => str "flaky"
  | .failingSec _ => str "failing"
  | .todoSec _ => str "todo"
  | .skippedSec _ => str "skipped"
  | .coverageSec _ => str "coverage"

/-- The document assembly of `onEnd`
(src/src/toon-playwright-reporter.ts lines 341-476): the three early error
returns, then the conditional sections in insertion order — duration and
timing rows (timing mode) or the scalar passing count, then flaky, failing,
todo, skipped when non-empty.  The trailing coverage section is modelled
from the spec (§4.6: emitted last, only when a coverage summary was
supplied), its emission code not being among the sources under review. -/
def onEnd (s : PwSnapshot) : List Sec :=
  if !s.didBegin then [.errorSec (str "Test run failed before initialization")]
  else if s.tests.isEmpty then [.errorSec (emptyMsg s)]
  else if testsWithResults s = 0 then [.errorSec (notExecutedMsg s)]
  else
    (if s.timing then
      [.durationSec (formatDuration s.resultDuration),
       .passingTiming ((passedTests s).map mapToTiming)]
     else [.passingCount (passedTests s).length]) ++
    (if (flakyTests s).isEmpty then [] else
      [.flakySec ((flakyTests s).map mapToFlaky)]) ++
    (if (failedTests s).isEmpty then [] else
      [.failingSec ((failedTests s).map mkFailurePw)]) ++
    (if (todoTests s).isEmpty then [] else
      [.todoSec ((todoTests s).map mapToSkippedPw)]) ++
    (if (skippedTests s).isEmpty then [] else
      [.skippedSec ((skippedTests s).map mapToSkippedPw)]) ++
    (match s.coverage with
     | some c => [.coverageSec c]
     | none => [])

/-- Field-presence signature of a failure record. -/
def sigOf (f : FailureData) : Bool × Bool × Bool :=
  (f.expected.isSome, f.got.isSome, f.error.isSome)

/-- Modelled from the spec (§4.2): the uniformity classifier of the
external notation encoder — every record shares the first record's exact
field set; the empty sequence is never tabular. -/
def uniformFailing (rows : List FailureData) : Bool :=
  match rows with
  | [] => false
  | r :: rest => rest.all fun x => sigOf x == sigOf r

/-- Modelled from the spec (§4.2-§4.4): the external notation encoder
(`encode` of `@toon-format/toon`, not part of this repository) on the
failing section — tabular (header with count and field set, one comma-row
per record) when uniform, one multi-line block per record otherwise. -/
def encodeFailing (rows : List FailureData) : List Str :=
  if uniformFailing rows then
    match rows with
    | [] => []
    | r :: _ =>
      let fields :=
        if r.expected.isSome && r.got.isSome then str "]{at,expected,got}:"
        else if r.error.isSome then str "]{at,error}:"
        else str "]{at}:"
      (str "failing[" ++ natStr rows.length ++ fields) ::
        rows.map fun f =>
          if f.expected.isSome && f.got.isSome then
            str "  " ++ toonQuote f.atLoc ',' ++ ',' ::
              toonQuote (f.expected.getD []) ',' ++ ',' ::
              toonQuote (f.got.getD []) ','
          else if f.error.isSome then
            str "  " ++ toonQuote f.atLoc ',' ++ ',' :: toonQuote (f.error.getD []) ','
          else str "  " ++ toonQuote f.atLoc ','
  else
    catList (fun f =>
      (str "- at: " ++ toonQuote f.atLoc ',') ::
      ((match f.expected with
        | some x => [str "  expected: " ++ toonQuote x ',']
        | none => []) ++
       (match f.got with
        | some x => [str "  got: " ++ toonQuote x ',']
        | none => []) ++
       (match f.error with
        | some x => [str "  error: " ++ toonQuote x ',']
        | none => []))) rows

/-- Modelled from the spec (§4.1-§4.4, §6): the lines the external
notation encoder produces for one section — scalar sections as
`name: value`, tabular sections as a header plus indented comma-rows. -/
def encodeSec : Sec → List Str
  | .errorSec m => [str "error: " ++ toonQuote m ',']
  | .durationSec d => [str "duration: " ++ toonQuote d ',']
  | .passingCount n => [str "passing: " ++ natStr n]
  | .passingTiming rows =>
    (str "passing[" ++ natStr rows.length ++ str "]{at,name,ms}:") ::
      rows.map fun r =>
        str "  " ++ toonQuote r.1 ',' ++ ',' :: toonQuote r.2.1 ',' ++ ',' ::
          natStr r.2.2
  | .flakySec rows =>
    (str "flaky[" ++ natStr rows.length ++ str "]{at,name,retries}:") ::
      rows.map fun r =>
        str "  " ++ toonQuote r.1 ',' ++ ',' :: toonQuote r.2.1 ',' ++ ',' ::
          natStr r.2.2
  | .failingSec rows => encodeFailing rows
  | .todoSec rows =>
    (str "todo[" ++ natStr rows.length ++ str "]{at,name}:") ::
      rows.map fun r => str "  " ++ toonQuote r.1 ',' ++ ',' :: toonQuote r.2 ','
  | .skippedSec rows =>
    (str "skipped[" ++ natStr rows.length ++ str "]{at,name}:") ::
      rows.map fun r => str "  " ++ toonQuote r.1 ',' ++ ',' :: toonQuote r.2 ','
  | .coverageSec c =>
    (str "coverage:") ::
      (str "  total%: " ++ natStr c.linesPct ++ ',' :: natStr c.stmtsPct ++
        ',' :: natStr c.branchPct ++ ',' :: natStr c.funcsPct) ::
      (if c.files.isEmpty then [] else
        (str "  files[" ++ natStr c.files.length ++ str "]{file,uncoveredLines}:") ::
          c.files.map fun r => str "    " ++ toonQuote r.1 ',' ++ ',' ::
            toonQuote r.2 ',')

/-- The lines of the encoded document. -/
def encodeDoc (doc : List Sec) : List Str := catList encodeSec doc

/-- Whether a line matches `/^(passing: .+)$/m`: the literal prefix
`passing: ` followed by at least one character. -/
def lineIsPassing (l : Str) : Bool :=
  startsWith (str "passing: ") l && decide (9 < l.length)

/-- The `(filtered)` post-processing
(src/src/toon-playwright-reporter.ts lines 481-484):
`output.replace(/^(passing: .+)$/m, '$1 (filtered)')` appends the marker
to the first matching line, leaving every other line unchanged. -/
def applyMarker : List Str → List Str
  | [] => []
  | l :: ls =>
    if lineIsPassing l then (l ++ str " (filtered)") :: ls
    else l :: applyMarker ls

/-- Whether `onEnd` takes one of its three early error returns
(src/src/toon-playwright-reporter.ts lines 343-347, 352-367, 408-418). -/
def isErrorRun (s : PwSnapshot) : Bool :=
  !s.didBegin || s.tests.isEmpty || decide (testsWithResults s = 0)

/-- The full textual output of `onEnd`: the encoded document, the filtered
marker applied only on the non-error path (the error paths return before
the marker code is reached). -/
def pwOutput (s : PwSnapshot) : List Str :=
  if isErrorRun s then encodeDoc (onEnd s)
  else if s.filtering then applyMarker (encodeDoc (onEnd s))
  else encodeDoc (onEnd s)

/-- C4: whenever a top-level error condition holds (the run never
initialized, the suite holds no tests, or tests exist but none has a
result) the assembled document is a single error section carrying a
message — no passing count and no other section. -/
theorem onEnd_error_only (s : PwSnapshot)
    (h : s.didBegin = false ∨ s.tests = [] ∨ testsWithResults s = 0) :
    ∃ m, onEnd s = [Sec.errorSec m] := by
  by_cases hb : s.didBegin = false
  · exact ⟨str "Test run failed before initialization", by simp [onEnd, hb]⟩
  · have hb' : s.didBegin = true := by
      revert hb; cases s.didBegin <;> simp
    by_cases ht : s.tests = []
    · exact ⟨emptyMsg s, by simp [onEnd, hb', ht]⟩
    · have hw : testsWithResults s = 0 := by
        rcases h with h | h | h
        · exact absurd h hb
        · exact absurd h ht
        · exact h
      have hie : s.tests.isEmpty = false := by
        rcases hc : s.tests with _ | ⟨a, b⟩
        · exact absurd hc ht
        · rfl
      exact ⟨notExecutedMsg s, by simp [onEnd, hb', hie, hw]⟩

/-- A snapshot whose suite is empty. -/
def emptySnap : PwSnapshot := ⟨true, 0, [], str "passed", 0, false, false, none⟩

/-- Witness for C4 at a concrete snapshot with an empty suite. -/
theorem onEnd_error_only_check : ∃ m, onEnd emptySnap = [Sec.errorSec m] :=
  onEnd_error_only emptySnap (Or.inr (Or.inl rfl))

/-- Canonical emission rank of a section in the fixed section order
`duration, passing, flaky, failing, todo, skipped, coverage` (`error`
standing apart as the short-circuit document). -/
def secPos : Sec → Nat
  | .errorSec _ => 0
  | .durationSec _ => 1
  | .passingCount _ => 2
  | .passingTiming _ => 2
  | .flakySec _ => 3
  | .failingSec _ => 4
  | .todoSec _ => 5
  | .skippedSec _ => 6
  | .coverageSec _ => 7

theorem mem_ite_list {α : Type} {P : Prop} [Decidable P] {x : α}
    {l1 l2 : List α} :
    x ∈ (if P then l1 else l2) ↔ (P ∧ x ∈ l1) ∨ (¬P ∧ x ∈ l2) := by
  split_ifs with h <;> simp [h]

/-- C5: without a top-level error condition the document's sections appear
in the fixed order duration, passing, flaky, failing, todo, skipped,
coverage (their ranks form a sublist of the ordered ranks); a passing
section (scalar count, or timing rows in timing mode) is always present;
and each optional section is present exactly when its backing data is
non-empty — duration exactly in timing mode, coverage exactly when a
summary was supplied. -/
theorem onEnd_sections (s : PwSnapshot)
    (h1 : s.didBegin = true) (h2 : s.tests ≠ []) (h3 : testsWithResults s ≠ 0) :
    ((onEnd s).map secPos).Sublist [1, 2, 3, 4, 5, 6, 7] ∧
    ((∃ n, Sec.passingCount n ∈ onEnd s) ∨
      ∃ rows, Sec.passingTiming rows ∈ onEnd s) ∧
    ((∃ d, Sec.durationSec d ∈ onEnd s) ↔ s.timing = true) ∧
    ((∃ rows, Sec.flakySec rows ∈ onEnd s) ↔ flakyTests s ≠ []) ∧
    ((∃ rows, Sec.failingSec rows ∈ onEnd s) ↔ failedTests s ≠ []) ∧
    ((∃ rows, Sec.todoSec rows ∈ onEnd s) ↔ todoTests s ≠ []) ∧
    ((∃ rows, Sec.skippedSec rows ∈ onEnd s) ↔ skippedTests s ≠ []) ∧
    ((∃ c, Sec.coverageSec c ∈ onEnd s) ↔ s.coverage.isSome = true) := by
  have hie : s.tests.isEmpty = false := by
    rcases hc : s.tests with _ | ⟨a, b⟩
    · exact absurd hc h2
    · rfl
  have hdoc : onEnd s =
      (if s.timing then
        [Sec.durationSec (formatDuration s.resultDuration),
         Sec.passingTiming ((passedTests s).map mapToTiming)]
       else [Sec.passingCount (passedTests s).length]) ++
      (if (flakyTests s).isEmpty then [] else
        [Sec.flakySec ((flakyTests s).map mapToFlaky)]) ++
      (if (failedTests s).isEmpty then [] else
        [Sec.failingSec ((failedTests s).map mkFailurePw)]) ++
      (if (todoTests s).isEmpty then [] else
        [Sec.todoSec ((todoTests s).map mapToSkippedPw)]) ++
      (if (skippedTests s).isEmpty then [] else
        [Sec.skippedSec ((skippedTests s).map mapToSkippedPw)]) ++
      (if s.coverage.isSome then
        [Sec.coverageSec (s.coverage.getD ⟨0, 0, 0, 0, []⟩)] else []) := by
    rcases hcov : s.coverage with _ | cov <;> simp [onEnd, h1, hie, h3, hcov]
  have hpos : (onEnd s).map secPos =
      (if s.timing then [1, 2] else [2]) ++
      (if (flakyTests s).isEmpty then [] else [3]) ++
      (if (failedTests s).isEmpty then [] else [4]) ++
      (if (todoTests s).isEmpty then [] else [5]) ++
      (if (skippedTests s).isEmpty then [] else [6]) ++
      (if s.coverage.isSome then [7] else []) := by
    rw [hdoc]
    simp only [List.map_append, apply_ite (List.map secPos), List.map_cons,
      List.map_nil, secPos]
  refine ⟨?_, ?_, ?_, ?_, ?_, ?_, ?_, ?_⟩
  · rw [hpos]
    split_ifs <;> decide
  · rw [hdoc]
    by_cases htm : s.timing = true <;>
      simp [mem_ite_list, htm]
  · rw [hdoc]
    simp [mem_ite_list]
  · rw [hdoc]
    simp [mem_ite_list, List.isEmpty_iff]
  · rw [hdoc]
    simp [mem_ite_list, List.isEmpty_iff]
  · rw [hdoc]
    simp [mem_ite_list, List.isEmpty_iff]
  · rw [hdoc]
    simp [mem_ite_list, List.isEmpty_iff]
  · rw [hdoc]
    simp [mem_ite_list]

/-- A concrete passed test. -/
def passTest : PwTest :=
  ⟨⟨str "a.ts", 1, 2⟩, str "t1", false, [⟨str "passed", 5, []⟩]⟩

/-- A concrete plain snapshot: one passed test, nothing else. -/
def plainSnap : PwSnapshot :=
  ⟨true, 1, [passTest], str "passed", 5, false, false, none⟩

/-- Witness for C5 at a concrete snapshot. -/
theorem onEnd_sections_check :
    ((onEnd plainSnap).map secPos).Sublist [1, 2, 3, 4, 5, 6, 7] ∧
    ((∃ n, Sec.passingCount n ∈ onEnd plainSnap) ∨
      ∃ rows, Sec.passingTiming rows ∈ onEnd plainSnap) :=
  ⟨(onEnd_sections plainSnap rfl (by decide) (by decide)).1,
   (onEnd_sections plainSnap rfl (by decide) (by decide)).2.1⟩

/-- A Vitest test error (`t.result?.errors?.[0]`,
src/src/toon-reporter.ts).  The outcome of the assertion-message probe
`/expected\s+(.+?)\s+to\s+(?:be|equal|deeply equal)\s+(.+?)(?:\s*\/\/|$)/i`
(line 123) is modelled as a data field carrying its two captured groups
(both non-optional, hence present whenever the probe matches); `strRepr`
models `String(error)`, and `expectedProp`/`actualProp` model
`String(error.expected)`/`String(error.actual)` when those properties are
defined. -/
structure VError where
  message : Option Str
  name : Option Str
  strRepr : Str
  matchToBe : Option (Str × Str)
  expectedProp : Option Str
  actualProp : Option Str
deriving DecidableEq

/-- Source `parseExpectedGot` of the Vitest reporter (src/src/toon-reporter.ts
lines 118-134): the assertion-message probe first (swapping the groups),
then the explicit `expected`/`actual` properties, else no extraction.  A
missing error yields an empty message and no properties, hence no
extraction. -/
def parseExpectedGotV (e : Option VError) : Option Str × Option Str :=
  match e with
  | none => (none, none)
  | some err =>
    match err.matchToBe with
    | some (g1, g2) => (some (trimStr g2), some (trimStr g1))
    | none =>
      match err.expectedProp, err.actualProp with
      | some ex, some ac => (some ex, some ac)
      | _, _ => (none, none)

/-- The error-message normalization of the Vitest failure construction
(src/src/toon-reporter.ts lines 175-184): `error.message || String(error)`,
first line only for timeout messages, error-name prefix for specific
errors. -/
def vErrorMessage (err : VError) : Str :=
  let m0 :=
    match err.message with
    | some m => if m.isEmpty then err.strRepr else m
    | none => err.strRepr
  let m1 :=
    if startsWith (str "Test timed out") m0 then m0.takeWhile (fun c => c != '\n')
    else m0
  match err.name with
  | some nm =>
    if !nm.isEmpty && nm != str "Error" && !startsWith nm m1 then
      nm ++ str ": " ++ m1
    else m1
  | none => m1

/-- A Vitest test as the failure construction sees it: the first error of
its result (if any), the stack-trace location probe's outcome (modelled as
data, the stack being free text), the test file paths, the optional
declared location, and the `each` flag. -/
structure VTest where
  error : Option VError
  parsedLoc : Option (Str × Str × Nat × Nat)
  fileAbs : Str
  fileRel : Str
  locLine : Option Nat
  locColumn : Option Nat
  each : Bool
deriving DecidableEq

/-- JS `a || b` over optional numbers (`parsed?.line || t.location?.line`):
a present non-zero value wins, otherwise the fallback. -/
def orTruthyNat (a b : Option Nat) : Option Nat :=
  match a with
  | some n => if n ≠ 0 then some n else b
  | none => b

/-- The Vitest failure construction (src/src/toon-reporter.ts lines
151-189): location from the stack probe or the test's own, then either the
extracted expected/got pair, or the normalized error message when an error
object exists, or no detail at all. -/
def mkFailureV (t : VTest) : ToonFailure :=
  let absPath := (t.parsedLoc.map fun p => p.1).getD t.fileAbs
  let relPath := (t.parsedLoc.map fun p => p.2.1).getD t.fileRel
  let line := orTruthyNat (t.parsedLoc.map fun p => p.2.2.1) t.locLine
  let column := orTruthyNat (t.parsedLoc.map fun p => p.2.2.2) t.locColumn
  let here :=
    match line with
    | some n =>
      if n ≠ 0 then relPath ++ ':' :: natStr n ++ ':' :: natStr (column.getD 0)
      else relPath
    | none => relPath
  let base : ToonFailure := ⟨here, absPath, line, column, none, none, none, t.each⟩
  match parseExpectedGotV t.error with
  | (some x, some g) => { base with expected := some x, got := some g }
  | _ =>
    match t.error with
    | some err => { base with error := some (vErrorMessage err) }
    | none => base

/-- Exactly one detail variant on a Vitest failure record. -/
def exactlyOneV (f : ToonFailure) : Prop :=
  (f.expected.isSome = true ∧ f.got.isSome = true ∧ f.error = none) ∨
  (f.expected = none ∧ f.got = none ∧ f.error.isSome = true)

/-- Exactly one detail variant on a Playwright failure record. -/
def exactlyOnePw (f : FailureData) : Prop :=
  (f.expected.isSome = true ∧ f.got.isSome = true ∧ f.error = none) ∨
  (f.expected = none ∧ f.got = none ∧ f.error.isSome = true)

/-- The error object the Playwright failure construction reads
(src/src/toon-playwright-reporter.ts lines 423-424). -/
def errorOfPw (t : PwTest) : Option PwError :=
  (t.results.getLast?).bind fun r => r.errors.head?

/-- C7 (amended): a failure record built from a test whose last result
carries an error object has exactly one detail variant — both expected and
got, or an error string — never both and never neither (for the Playwright
reporter this needs the error to carry a message, the Vitest reporter
always falls back to `String(error)`); a failed test without an error
object yields a record with neither variant. -/
theorem failure_detail_exactly_one :
    (∀ t : VTest, t.error.isSome = true → exactlyOneV (mkFailureV t)) ∧
    (∀ t : PwTest, ∀ e : PwError, errorOfPw t = some e →
      e.message.isSome = true → exactlyOnePw (mkFailurePw t)) ∧
    (∀ t : VTest, t.error = none →
      (mkFailureV t).expected = none ∧ (mkFailureV t).got = none ∧
      (mkFailureV t).error = none) := by
  refine ⟨?_, ?_, ?_⟩
  · intro t h
    rcases herr : t.error with _ | err
    · rw [herr] at h; simp at h
    · simp only [mkFailureV, herr]
      rcases hpg : parseExpectedGotV (some err) with ⟨oe, og⟩
      rcases oe with _ | x <;> rcases og with _ | g
      · exact Or.inr ⟨rfl, rfl, rfl⟩
      · exact Or.inr ⟨rfl, rfl, rfl⟩
      · exact Or.inr ⟨rfl, rfl, rfl⟩
      · exact Or.inl ⟨rfl, rfl, rfl⟩
  · intro t e he hm
    simp only [errorOfPw] at he
    simp only [mkFailurePw]
    rw [he]
    dsimp only
    rcases hpg : parseExpectedGotPw e with ⟨oe, og⟩
    rcases oe with _ | x <;> rcases og with _ | g
    · exact Or.inr ⟨rfl, rfl, by simpa using hm⟩
    · exact Or.inr ⟨rfl, rfl, by simpa using hm⟩
    · exact Or.inr ⟨rfl, rfl, by simpa using hm⟩
    · exact Or.inl ⟨rfl, rfl, rfl⟩
  · intro t h
    simp [mkFailureV, h, parseExpectedGotV]

/-- A failed Playwright test whose result carries no error object. -/
def noErrTest : PwTest :=
  ⟨⟨str "a.ts", 3, 4⟩, str "t", false, [⟨str "failed", 0, []⟩]⟩

/-- Counterexample to C7 as stated: the failure record built for a failed
test with no error object carries neither detail variant. -/
theorem failure_detail_cex : ¬ exactlyOnePw (mkFailurePw noErrTest) := by
  unfold exactlyOnePw
  decide

/-- A failed Playwright test whose result carries a plain thrown error. -/
def oneErrTest : PwTest :=
  ⟨⟨str "a.ts", 3, 4⟩, str "t", false,
    [⟨str "failed", 0, [⟨some (str "kaboom"), none, none, none, none⟩]⟩]⟩

/-- Witness for C7 at a concrete test with a thrown error. -/
theorem failure_detail_exactly_one_check : exactlyOnePw (mkFailurePw oneErrTest) :=
  failure_detail_exactly_one.2.1 oneErrTest
    ⟨some (str "kaboom"), none, none, none, none⟩ rfl rfl

/-- C10: each expected/got extraction heuristic returns either both
strings or neither, never exactly one; consequently no failure record
carries an expected field without a got field or vice versa. -/
theorem parse_both_or_neither :
    (∀ e : Option VError,
      (parseExpectedGotV e).1.isSome = (parseExpectedGotV e).2.isSome) ∧
    (∀ e : PwError,
      (parseExpectedGotPw e).1.isSome = (parseExpectedGotPw e).2.isSome) ∧
    (∀ t : VTest, (mkFailureV t).expected.isSome = (mkFailureV t).got.isSome) ∧
    (∀ t : PwTest, (mkFailurePw t).expected.isSome = (mkFailurePw t).got.isSome) := by
  have hv : ∀ e : Option VError,
      (parseExpectedGotV e).1.isSome = (parseExpectedGotV e).2.isSome := by
    intro e
    rcases e with _ | err
    · rfl
    · rcases hm : err.matchToBe with _ | ⟨g1, g2⟩ <;>
        rcases hx : err.expectedProp with _ | ex <;>
        rcases ha : err.actualProp with _ | ac <;>
        simp [parseExpectedGotV, hm, hx, ha]
  have hp : ∀ e : PwError,
      (parseExpectedGotPw e).1.isSome = (parseExpectedGotPw e).2.isSome := by
    intro e
    rcases hx : e.expectedMatch with _ | em <;>
      rcases hr : e.receivedMatch with _ | rm <;>
      rcases ht : e.toBeMatch with _ | ⟨g1, g2⟩ <;>
      simp [parseExpectedGotPw, hx, hr, ht]
  refine ⟨hv, hp, ?_, ?_⟩
  · intro t
    rcases herr : t.error with _ | err
    · simp only [mkFailureV, herr, parseExpectedGotV]
    · simp only [mkFailureV, herr]
      rcases hpg : parseExpectedGotV (some err) with ⟨oe, og⟩
      rcases oe with _ | x <;> rcases og with _ | g <;> rfl
  · intro t
    simp only [mkFailurePw]
    rcases herr : (t.results.getLast?).bind (fun r => r.errors.head?) with _ | e
    · rfl
    · dsimp only
      rcases hpg : parseExpectedGotPw e with ⟨oe, og⟩
      rcases oe with _ | x <;> rcases og with _ | g <;> rfl

/-- A filtered snapshot: one passed test, grep configured, timing off. -/
def filterSnap : PwSnapshot :=
  ⟨true, 1, [passTest], str "passed", 5, false, true, none⟩

/-- Counterexample to C8 as stated: in a filtered run the whole output is
the single marked passing line — the document carries no skipped count of
filter-excluded tests, and no skipped section at all. -/
theorem filtered_no_skipped_cex :
    pwOutput filterSnap = [str "passing: 1 (filtered)"] ∧
    ∀ sec ∈ onEnd filterSnap, secName sec ≠ str "skipped" := by
  constructor
  · rfl
  · decide

/-- C8 (amended): in a run without a top-level error condition, not in
timing mode and with grep or grepInvert configured, the first output line
is the scalar passing line with ` (filtered)` appended, every other line
unchanged; no separate count of filter-excluded tests is emitted. -/
theorem filtered_marker (s : PwSnapshot)
    (h1 : s.didBegin = true) (h2 : s.tests ≠ []) (h3 : testsWithResults s ≠ 0)
    (h4 : s.timing = false) (h5 : s.filtering = true) :
    ∃ rest, encodeDoc (onEnd s) =
        (str "passing: " ++ natStr (passedTests s).length) :: rest ∧
      pwOutput s =
        (str "passing: " ++ natStr (passedTests s).length ++ str " (filtered)") ::
          rest := by
  have hie : s.tests.isEmpty = false := by
    rcases hc : s.tests with _ | ⟨a, b⟩
    · exact absurd hc h2
    · rfl
  obtain ⟨tailSecs, hdoc⟩ :
      ∃ tailSecs, onEnd s = Sec.passingCount (passedTests s).length :: tailSecs :=
    ⟨_, by simp [onEnd, h1, hie, h3, h4]; rfl⟩
  have henc : encodeDoc (onEnd s) =
      (str "passing: " ++ natStr (passedTests s).length) :: encodeDoc tailSecs := by
    rw [hdoc]
    simp [encodeDoc, catList, encodeSec]
  have hlen : 9 < (str "passing: " ++ natStr (passedTests s).length).length := by
    have h0 : 0 < (natStr (passedTests s).length).length :=
      List.length_pos.mpr (natStr_ne_nil _)
    have h9 : (str "passing: ").length = 9 := rfl
    rw [List.length_append, h9]
    omega
  have hmark : lineIsPassing (str "passing: " ++ natStr (passedTests s).length)
      = true := by
    unfold lineIsPassing
    rw [startsWith_append]
    simp only [Bool.true_and, decide_eq_true_eq]
    exact hlen
  have herrrun : isErrorRun s = false := by
    simp [isErrorRun, h1, hie, h3]
  refine ⟨encodeDoc tailSecs, henc, ?_⟩
  rw [pwOutput, herrrun]
  simp only [Bool.false_eq_true, if_false, h5, if_pos]
  rw [henc, applyMarker, if_pos hmark]

/-- Witness for C8's amended statement at a concrete snapshot. -/
theorem filtered_marker_check :
    ∃ rest, encodeDoc (onEnd filterSnap) =
        (str "passing: " ++ natStr (passedTests filterSnap).length) :: rest ∧
      pwOutput filterSnap =
        (str "passing: " ++ natStr (passedTests filterSnap).length ++
          str " (filtered)") :: rest :=
  filtered_marker filterSnap rfl (by decide) (by decide) rfl rfl

end ToonSpec
